import Mathlib

/-!
Shallow embedding of the trading-signal engine.

Numeric code is embedded over the exact rationals.  JavaScript arrays become
Lean lists: push appends at the end, shift drops the head, slice with a
negative start is a suffix.  The square root used by the Bollinger band
computation is kept as an explicit function parameter, constrained only by
the facts the proofs need.
-/

namespace TradeEngine

/-- Signal type of a strategy result. -/
inductive Sig where
  | LONG
  | SHORT
  | WAIT
deriving DecidableEq, Repr

/-- CVD trend classification. -/
inductive Trend where
  | bullish
  | bearish
  | neutral
deriving DecidableEq, Repr

/-- History capacity of IndicatorCalculator (maxHistoryLength in the source). -/
def maxHistoryLength : ℕ := 100

/-- Append one value to a history list and evict the oldest element when the
capacity is exceeded: the push-then-shift pattern used by updatePrice. -/
def pushCapped (l : List ℚ) (x : ℚ) : List ℚ :=
  let l2 := l ++ [x]
  if maxHistoryLength < l2.length then l2.tail else l2

/-- The four per-instrument history series of IndicatorCalculator. -/
structure CalcState where
  priceHistory : List ℚ
  volumeHistory : List ℚ
  openInterestHistory : List ℚ
  cvdHistory : List ℚ
deriving DecidableEq, Repr

/-- State of an instrument that has never been updated. -/
def initCalcState : CalcState :=
  { priceHistory := [], volumeHistory := [], openInterestHistory := [], cvdHistory := [] }

/-- updateCVD from indicators.ts: reads the already-updated price history,
weights the volume by price-movement strength and extends the CVD series. -/
def updateCVD (newPrices : List ℚ) (cvdValues : List ℚ) (volume : ℚ) : List ℚ :=
  if 2 ≤ newPrices.length then
    let previousPrice := newPrices.dropLast.getLastD 0
    let currentPrice := newPrices.getLastD 0
    let priceChange := currentPrice - previousPrice
    let priceChangePercent := |priceChange| / previousPrice
    let volumeWeight := min (1 + priceChangePercent * 10) 3
    let volumeDelta :=
      if previousPrice < currentPrice then volume * volumeWeight
      else if currentPrice < previousPrice then -volume * volumeWeight
      else 0
    let lastCVD := cvdValues.getLastD 0
    pushCapped cvdValues (lastCVD + volumeDelta)
  else
    cvdValues ++ [0]

/-- updatePrice from indicators.ts: push price, volume and open interest with
eviction at the capacity, then recompute CVD from the new price history. -/
def updatePrice (st : CalcState) (price volume openInterest : ℚ) : CalcState :=
  let newPrices := pushCapped st.priceHistory price
  { priceHistory := newPrices
    volumeHistory := pushCapped st.volumeHistory volume
    openInterestHistory := pushCapped st.openInterestHistory openInterest
    cvdHistory := updateCVD newPrices st.cvdHistory volume }

/-- Feed a sequence of (price, volume, openInterest) ticks of one instrument
through updatePrice, starting from the untouched state. -/
def runTicks (ticks : List (ℚ × ℚ × ℚ)) : CalcState :=
  ticks.foldl (fun st t => updatePrice st t.1 t.2.1 t.2.2) initCalcState

/-- Successive differences of a list: element i is l(i+1) - l(i). -/
def listDeltas (l : List ℚ) : List ℚ :=
  List.zipWith (fun a b => b - a) l l.tail

/-- The trailing period+1 prices whose deltas feed the RSI loop. -/
def rsiWindow (prices : List ℚ) (period : ℕ) : List ℚ :=
  prices.drop (prices.length - (period + 1))

/-- Average gain of the RSI loop: positive deltas summed, divided by period. -/
def rsiAvgGain (prices : List ℚ) (period : ℕ) : ℚ :=
  ((listDeltas (rsiWindow prices period)).map (fun c => if 0 < c then c else 0)).sum / (period : ℚ)

/-- Average loss of the RSI loop: absolute non-positive deltas summed, divided
by period. -/
def rsiAvgLoss (prices : List ℚ) (period : ℕ) : ℚ :=
  ((listDeltas (rsiWindow prices period)).map (fun c => if 0 < c then 0 else -c)).sum / (period : ℚ)

/-- calculateRSI from indicators.ts. -/
def calculateRSI (prices : List ℚ) (period : ℕ) : ℚ :=
  if prices.length < period + 1 then 50
  else if rsiAvgLoss prices period = 0 then 100
  else 100 - 100 / (1 + rsiAvgGain prices period / rsiAvgLoss prices period)

/-- calculateEMA from indicators.ts: seeded at the first buffered price and
folded across the entire retained buffer. -/
def calculateEMA (prices : List ℚ) (period : ℕ) : ℚ :=
  match prices with
  | [] => 0
  | p :: rest => rest.foldl (fun ema x => (x - ema) * (2 / (period + 1)) + ema) p

/-- MACD triple (macd, signal, line) from indicators.ts; the signal line is a
fixed 0.8 multiple of the MACD line. -/
structure MACDValues where
  macd : ℚ
  signal : ℚ
  line : ℚ
deriving DecidableEq, Repr

/-- calculateMACD from indicators.ts. -/
def calculateMACD (prices : List ℚ) : MACDValues :=
  if prices.length < 26 then { macd := 0, signal := 0, line := 0 }
  else
    let ema12 := calculateEMA prices 12
    let ema26 := calculateEMA prices 26
    let macdLine := ema12 - ema26
    let signal := macdLine * (8 / 10)
    { macd := macdLine - signal, signal := signal, line := macdLine }

/-- calculateMovingAverage from indicators.ts: arithmetic mean of the trailing
period prices, falling back to the most recent price (or 0). -/
def calculateMovingAverage (prices : List ℚ) (period : ℕ) : ℚ :=
  if prices.length < period then prices.getLastD 0
  else (prices.drop (prices.length - period)).sum / (period : ℚ)

/-- calculateBollingerBands from indicators.ts, returning (upper, lower,
middle).  The square-root function is a parameter of the embedding. -/
def calculateBollingerBands (sqrtFn : ℚ → ℚ) (prices : List ℚ) (period : ℕ) :
    ℚ × ℚ × ℚ :=
  if prices.length < period then
    let currentPrice := prices.getLastD 0
    (currentPrice, currentPrice, currentPrice)
  else
    let recentPrices := prices.drop (prices.length - period)
    let middle := recentPrices.sum / (period : ℚ)
    let variance := (recentPrices.map (fun p => (p - middle) ^ 2)).sum / (period : ℚ)
    let stdDev := sqrtFn variance
    (middle + stdDev * 2, middle - stdDev * 2, middle)

/-- calculateVolumeSpike from indicators.ts, returning (avgVolume, spike). -/
def calculateVolumeSpike (volumes : List ℚ) (lookbackPeriod : ℕ) : ℚ × Bool :=
  if volumes.length < lookbackPeriod then (volumes.getLastD 0, false)
  else
    let recentVolumes := volumes.drop (volumes.length - lookbackPeriod)
    let avgVolume := recentVolumes.sum / (lookbackPeriod : ℚ)
    let currentVolume := volumes.getLastD 0
    (avgVolume, decide (avgVolume * 2 < currentVolume))

/-- calculateCVDSlope from indicators.ts: least-squares slope of the last
lookbackPeriod+1 CVD points against their index. -/
def calculateCVDSlope (cvdValues : List ℚ) (lookbackPeriod : ℕ) : ℚ :=
  if cvdValues.length < lookbackPeriod + 1 then 0
  else
    let recentCVD := cvdValues.drop (cvdValues.length - (lookbackPeriod + 1))
    if recentCVD.length < 2 then 0
    else
      let n : ℚ := recentCVD.length
      let sumX := ((List.range recentCVD.length).map (fun i => (i : ℚ))).sum
      let sumY := recentCVD.sum
      let sumXY := (recentCVD.zipWith (fun y i => (i : ℚ) * y) (List.range recentCVD.length)).sum
      let sumX2 := ((List.range recentCVD.length).map (fun i => ((i : ℚ)) * i)).sum
      (n * sumXY - sumX * sumY) / (n * sumX2 - sumX * sumX)

/-- calculateCVDTrend from indicators.ts.  The denominator is the JavaScript
expression Math.abs of (firstValue or-else 1): the absolute first value when
it is nonzero, and 1 when the first value is zero. -/
def calculateCVDTrend (cvdValues : List ℚ) (lookbackPeriod : ℕ) : Trend :=
  if cvdValues.length < lookbackPeriod then Trend.neutral
  else
    let recentCVD := cvdValues.drop (cvdValues.length - lookbackPeriod)
    let firstValue := recentCVD.headI
    let lastValue := recentCVD.getLastD 0
    let trendStrength := (lastValue - firstValue) / (if firstValue = 0 then 1 else |firstValue|)
    if 1 / 10 < trendStrength then Trend.bullish
    else if trendStrength < -(1 / 10) then Trend.bearish
    else Trend.neutral

/-- Modelled from the claim wording for comparison with the source: CVD trend
whose strength divides by max of the absolute first value and 1. -/
def specCVDTrend (cvdValues : List ℚ) (lookbackPeriod : ℕ) : Trend :=
  if cvdValues.length < lookbackPeriod then Trend.neutral
  else
    let recentCVD := cvdValues.drop (cvdValues.length - lookbackPeriod)
    let firstValue := recentCVD.headI
    let lastValue := recentCVD.getLastD 0
    let trendStrength := (lastValue - firstValue) / max |firstValue| 1
    if 1 / 10 < trendStrength then Trend.bullish
    else if trendStrength < -(1 / 10) then Trend.bearish
    else Trend.neutral

/-- The indicator snapshot produced by getIndicatorValues. -/
structure IndicatorValues where
  rsi : ℚ
  macd : MACDValues
  ma5 : ℚ
  ma8 : ℚ
  ma13 : ℚ
  ma20 : ℚ
  ma21 : ℚ
  ma34 : ℚ
  ma50 : ℚ
  bollingerUpper : ℚ
  bollingerLower : ℚ
  bollingerMiddle : ℚ
  volume : ℚ
  avgVolume : ℚ
  volumeSpike : Bool
  price : ℚ
  openInterest : ℚ
  cvd : ℚ
  cvdTrend : Trend
  cvdSlope : ℚ
deriving DecidableEq, Repr

/-- getIndicatorValues from indicators.ts, recomputed from the current state. -/
def getIndicatorValues (sqrtFn : ℚ → ℚ) (st : CalcState) : IndicatorValues :=
  let bollinger := calculateBollingerBands sqrtFn st.priceHistory 20
  let volumeAnalysis := calculateVolumeSpike st.volumeHistory 20
  { rsi := calculateRSI st.priceHistory 14
    macd := calculateMACD st.priceHistory
    ma5 := calculateMovingAverage st.priceHistory 5
    ma8 := calculateMovingAverage st.priceHistory 8
    ma13 := calculateMovingAverage st.priceHistory 13
    ma20 := calculateMovingAverage st.priceHistory 20
    ma21 := calculateMovingAverage st.priceHistory 21
    ma34 := calculateMovingAverage st.priceHistory 34
    ma50 := calculateMovingAverage st.priceHistory 50
    bollingerUpper := bollinger.1
    bollingerLower := bollinger.2.1
    bollingerMiddle := bollinger.2.2
    volume := st.volumeHistory.getLastD 0
    avgVolume := volumeAnalysis.1
    volumeSpike := volumeAnalysis.2
    price := st.priceHistory.getLastD 0
    openInterest := st.openInterestHistory.getLastD 0
    cvd := st.cvdHistory.getLastD 0
    cvdTrend := calculateCVDTrend st.cvdHistory 10
    cvdSlope := calculateCVDSlope st.cvdHistory 5 }

end TradeEngine

namespace TradeEngine

/-- Result of checkPumpConditions in the pump strategy component. -/
structure PumpResult where
  entryPrice : ℚ
  takeProfit : ℚ
  stopLoss : ℚ
  condVolumeSpike : Bool
  condRsi : Bool
  condMovingAverages : Bool
  condMacd : Bool
  condCvd : Bool
  condBollinger : Bool
  allConditionsMet : Bool
  signal : Sig
deriving DecidableEq, Repr

/-- checkPumpConditions from the pump strategy component: six boolean
predicates over the indicator snapshot whose conjunction admits a LONG. -/
def checkPumpConditions (currentPrice : ℚ) (ind : IndicatorValues) : PumpResult :=
  let entryPrice := currentPrice
  let takeProfit := entryPrice * (103 / 100)
  let stopLoss := entryPrice * (99 / 100)
  let volumeSpikeCondition := ind.volumeSpike && decide (ind.avgVolume * 3 < ind.volume)
  let rsiCondition := decide (50 < ind.rsi) && decide (ind.rsi < 80)
  let maCondition := decide (ind.ma20 < currentPrice) && decide (ind.ma20 < ind.ma5)
  let macdCondition := decide (ind.macd.signal < ind.macd.line) && decide (0 < ind.macd.line)
  let cvdCondition := decide (ind.cvdTrend = Trend.bullish) && decide (0 < ind.cvd)
  let bollingerCondition := decide (ind.bollingerMiddle < currentPrice)
  let allConditionsMet :=
    volumeSpikeCondition && rsiCondition && maCondition && macdCondition &&
      cvdCondition && bollingerCondition
  { entryPrice := entryPrice
    takeProfit := takeProfit
    stopLoss := stopLoss
    condVolumeSpike := volumeSpikeCondition
    condRsi := rsiCondition
    condMovingAverages := maCondition
    condMacd := macdCondition
    condCvd := cvdCondition
    condBollinger := bollingerCondition
    allConditionsMet := allConditionsMet
    signal := if allConditionsMet then Sig.LONG else Sig.WAIT }

/-- End-to-end pump evaluation: feed (price, volume) ticks with zero open
interest through the history store, take the indicator snapshot, and run the
pump rule set at the latest price. -/
def pumpAfter (sqrtFn : ℚ → ℚ) (ticks : List (ℚ × ℚ)) : PumpResult :=
  let st := runTicks (ticks.map (fun t => (t.1, t.2, 0)))
  let ind := getIndicatorValues sqrtFn st
  checkPumpConditions ind.price ind

/-- The CVD series produced by replaying (price, volume) ticks through the
history store from the untouched state. -/
def cvdSeriesOf (ticks : List (ℚ × ℚ)) : List ℚ :=
  (runTicks (ticks.map (fun t => (t.1, t.2, 0)))).cvdHistory

/-- The worker simulation of CVD: last volume times a sign drawn from one
random sample and a magnitude drawn from another. -/
def workerCVD (volumeData : List ℚ) (rand1 rand2 : ℚ) : ℚ :=
  (volumeData.getLastD 0) * (if 1 / 2 < rand1 then 1 else -1) * (rand2 * 1000)

/-- Duplicate-suppression window of the signal debouncer, in milliseconds. -/
def duplicateWindow : ℤ := 10000

/-- Debounce expiry delay of the signal debouncer, in milliseconds. -/
def debounceTime : ℤ := 2000

/-- shouldProcessSignal of the signal debouncer for one key, over the pending
record of that key: none when absent, some origin timestamp when pending.
Returns the decision and the new pending record. -/
def shouldProcessSignal (pending : Option ℤ) (timestamp : ℤ) : Bool × Option ℤ :=
  match pending with
  | some t0 =>
      if timestamp - t0 < duplicateWindow then (false, some t0)
      else (true, some timestamp)
  | none => (true, some timestamp)

/-- One event seen by the worker manager for a fixed instrument: a new
calculateIndicators request carrying a callback identity, or a worker
response message for that instrument. -/
inductive WEvent where
  | req : ℕ → WEvent
  | resp : WEvent
deriving DecidableEq, Repr

/-- Single step of the pending-task table for one instrument: a request
stores its callback (overwriting a pending one); a response invokes the
stored callback, if any, and deletes it.  The second component lists the
callbacks invoked by the step. -/
def wStep : Option ℕ → WEvent → Option ℕ × List ℕ
  | _, WEvent.req c => (some c, [])
  | some c, WEvent.resp => (none, [c])
  | none, WEvent.resp => (none, [])

/-- Run of the pending-task table over an event sequence, accumulating every
callback invocation. -/
def wRun : Option ℕ → List WEvent → Option ℕ × List ℕ
  | st, [] => (st, [])
  | st, e :: es =>
      let s := wStep st e
      let r := wRun s.1 es
      (r.1, s.2 ++ r.2)

/-- The fields of a persisted TradingSignal that the persistence layer reads
or writes; the indicator payload is opaque to it and is omitted. -/
structure TSig where
  id : String
  symbol : String
  strategy : String
  signal : Sig
  timestamp : ℤ
  entryPrice : ℚ
  takeProfit : ℚ
  stopLoss : ℚ
  active : Bool
  executed : Bool
  executedAt : Option ℤ
  pnl : Option ℚ
deriving DecidableEq, Repr

/-- The field updates markSignalExecuted applies to the found signal. -/
def execUpdate (s : TSig) (executionPrice : ℚ) (now : ℤ) : TSig :=
  { s with
    executed := true
    executedAt := some now
    active := false
    pnl :=
      if s.signal = Sig.LONG then some (executionPrice - s.entryPrice)
      else if s.signal = Sig.SHORT then some (s.entryPrice - executionPrice)
      else s.pnl }

/-- markSignalExecuted from signalPersistence.ts over the stored list: the
first signal carrying the id is updated in place, every other record is kept
as is, and a missing id leaves the store untouched. -/
def markSignalExecuted (signalId : String) (executionPrice : ℚ) (now : ℤ) :
    List TSig → List TSig
  | [] => []
  | s :: rest =>
      if s.id = signalId then execUpdate s executionPrice now :: rest
      else s :: markSignalExecuted signalId executionPrice now rest

/-- Record cap of the signal persistence manager (maxSignals in the source). -/
def maxSignals : ℕ := 1000

/-- The record filter applied by the localStorage fallback of saveSignal:
drop any active record of the same symbol and strategy. -/
def localFiltered (signal : TSig) (signals : List TSig) : List TSig :=
  signals.filter (fun s => !(s.symbol = signal.symbol ∧ s.strategy = signal.strategy ∧ s.active = true : Bool))

/-- The localStorage fallback of saveSignal: filter, put the new record at
the front, and truncate to the cap when it is exceeded. -/
def saveSignalLocal (signal : TSig) (signals : List TSig) : List TSig :=
  let arr := signal :: localFiltered signal signals
  if maxSignals < arr.length then arr.take maxSignals else arr

/-- The IndexedDB object-store put used by IndexedDBService.saveSignal: an
upsert keyed by id, with no eviction. -/
def idbPut (signal : TSig) : List TSig → List TSig
  | [] => [signal]
  | s :: rest =>
      if s.id = signal.id then signal :: rest
      else s :: idbPut signal rest

/-- A family of signals with pairwise distinct ids, used to exercise the
IndexedDB path. -/
def mkSig (n : ℕ) : TSig :=
  { id := String.mk (List.replicate n 'a')
    symbol := "BTCUSDT"
    strategy := "pump"
    signal := Sig.LONG
    timestamp := n
    entryPrice := 1
    takeProfit := 103 / 100
    stopLoss := 99 / 100
    active := true
    executed := false
    executedAt := none
    pnl := none }

/-- The IndexedDB store after k accepted saveSignal calls with distinct ids. -/
def idbStoreAfter (k : ℕ) : List TSig :=
  (List.range k).foldl (fun store n => idbPut (mkSig n) store) []

/-- The suffix of length at most n of a list, in order: what remains of a
capacity-n FIFO after its whole input. -/
def lastN (n : ℕ) (l : List ℚ) : List ℚ :=
  l.drop (l.length - n)

end TradeEngine

namespace TradeEngine

theorem lastN_of_le {n : ℕ} {l : List ℚ} (h : l.length ≤ n) : lastN n l = l := by
  simp [lastN, Nat.sub_eq_zero_of_le h]

theorem lastN_length (n : ℕ) (l : List ℚ) : (lastN n l).length = min n l.length := by
  simp [lastN]; omega

theorem pushCapped_length {l : List ℚ} (x : ℚ) (h : l.length ≤ 100) :
    (pushCapped l x).length = min (l.length + 1) 100 := by
  simp only [pushCapped, maxHistoryLength]
  split <;> (simp_all; try omega)

theorem tail_append_singleton {a : List ℚ} (x : ℚ) (h : a ≠ []) :
    (a ++ [x]).tail = a.tail ++ [x] := by
  cases a with
  | nil => exact absurd rfl h
  | cons y ys => rfl

theorem pushCapped_lastN (p : List ℚ) (x : ℚ) :
    pushCapped (lastN 100 p) x = lastN 100 (p ++ [x]) := by
  by_cases h : p.length ≤ 99
  · rw [lastN_of_le (by omega), lastN_of_le (by simp; omega)]
    simp only [pushCapped, maxHistoryLength]
    rw [if_neg (by simp; omega)]
  · have h100 : 100 ≤ p.length := by omega
    have hlen : (lastN 100 p).length = 100 := by rw [lastN_length]; omega
    have hne : lastN 100 p ≠ [] := by
      intro hc; rw [hc] at hlen; simp at hlen
    simp only [pushCapped, maxHistoryLength]
    rw [if_pos (by simp [hlen])]
    rw [tail_append_singleton x hne]
    show (p.drop (p.length - 100)).tail ++ [x] = lastN 100 (p ++ [x])
    rw [List.tail_drop]
    have hd : (p ++ [x]).drop (p.length + 1 - 100) = p.drop (p.length + 1 - 100) ++ [x] := by
      rw [List.drop_append_of_le_length (by omega)]
    simp only [lastN, List.length_append, List.length_singleton]
    rw [hd]
    congr 2
    omega

theorem runTicks_append (ticks : List (ℚ × ℚ × ℚ)) (t : ℚ × ℚ × ℚ) :
    runTicks (ticks ++ [t]) = updatePrice (runTicks ticks) t.1 t.2.1 t.2.2 := by
  simp [runTicks, List.foldl_append]

/-- Characterisation of the per-instrument histories after any tick sequence:
the three pushed series hold the most recent (at most 100) inputs in arrival
order, and the CVD series has one entry per processed tick up to the cap. -/
theorem runTicks_histories (ticks : List (ℚ × ℚ × ℚ)) :
    (runTicks ticks).priceHistory = lastN 100 (ticks.map (fun t => t.1)) ∧
    (runTicks ticks).volumeHistory = lastN 100 (ticks.map (fun t => t.2.1)) ∧
    (runTicks ticks).openInterestHistory = lastN 100 (ticks.map (fun t => t.2.2)) ∧
    (runTicks ticks).cvdHistory.length = min ticks.length 100 := by
  induction ticks using List.reverseRecOn with
  | nil => simp [runTicks, initCalcState, lastN]
  | append_singleton l t ih =>
    obtain ⟨ihp, ihv, iho, ihc⟩ := ih
    rw [runTicks_append]
    have hplen : (runTicks l).priceHistory.length = min 100 l.length := by
      rw [ihp, lastN_length, List.length_map]
    constructor
    · show pushCapped (runTicks l).priceHistory t.1 = _
      rw [ihp, pushCapped_lastN, List.map_append]
      rfl
    constructor
    · show pushCapped (runTicks l).volumeHistory t.2.1 = _
      rw [ihv, pushCapped_lastN, List.map_append]
      rfl
    constructor
    · show pushCapped (runTicks l).openInterestHistory t.2.2 = _
      rw [iho, pushCapped_lastN, List.map_append]
      rfl
    · show (updateCVD (pushCapped (runTicks l).priceHistory t.1) (runTicks l).cvdHistory t.2.1).length = _
      have hnew : (pushCapped (runTicks l).priceHistory t.1).length = min (l.length + 1) 100 := by
        rw [pushCapped_length _ (by omega), hplen]
        omega
      by_cases hl : l = []
      · subst hl
        simp only [List.length_nil] at hplen ⊢
        have : (runTicks []).priceHistory = [] := by
          simpa using List.length_eq_zero.mp (by omega)
        simp only [updateCVD]
        rw [if_neg (by rw [hnew]; simp)]
        have hc0 : (runTicks []).cvdHistory = [] := by
          have := ihc
          simp only [List.length_nil] at this
          exact List.length_eq_zero.mp (by omega)
        simp [hc0]
      · have hl1 : 1 ≤ l.length := by
          cases l with
          | nil => exact absurd rfl hl
          | cons a as => simp
        simp only [updateCVD]
        rw [if_pos (by rw [hnew]; omega)]
        rw [pushCapped_length _ (by omega), ihc]
        simp
        omega

end TradeEngine

namespace TradeEngine

theorem listDeltas_cons_cons (a b : ℚ) (t : List ℚ) :
    listDeltas (a :: b :: t) = (b - a) :: listDeltas (b :: t) := rfl

theorem listDeltas_pos_of_chain {l : List ℚ} (h : List.Chain' (· < ·) l) :
    ∀ d ∈ listDeltas l, 0 < d := by
  induction l with
  | nil => intro d hd; simp [listDeltas] at hd
  | cons a t ih =>
    cases t with
    | nil => intro d hd; simp [listDeltas] at hd
    | cons b t2 =>
      rw [listDeltas_cons_cons]
      rw [List.chain'_cons] at h
      intro d hd
      rcases List.mem_cons.mp hd with h1 | h2
      · rw [h1]; linarith [h.1]
      · exact ih h.2 d h2

theorem rsiAvgLoss_eq_zero {prices : List ℚ} {period : ℕ}
    (h : List.Chain' (· < ·) prices) : rsiAvgLoss prices period = 0 := by
  unfold rsiAvgLoss
  rw [List.sum_eq_zero, zero_div]
  intro x hx
  obtain ⟨c, hc, hcx⟩ := List.mem_map.mp hx
  have hcpos : 0 < c :=
    listDeltas_pos_of_chain (h.drop _) c hc
  rw [← hcx, if_pos hcpos]

theorem calculateRSI_eq_100 {prices : List ℚ} {period : ℕ}
    (hlen : period + 1 ≤ prices.length) (h : List.Chain' (· < ·) prices) :
    calculateRSI prices period = 100 := by
  unfold calculateRSI
  rw [if_neg (by omega), if_pos (rsiAvgLoss_eq_zero h)]

theorem checkPump_of_rsi_100 (cp : ℚ) (ind : IndicatorValues) (h : ind.rsi = 100) :
    (checkPumpConditions cp ind).signal = Sig.WAIT ∧
    (checkPumpConditions cp ind).entryPrice = cp ∧
    (checkPumpConditions cp ind).takeProfit = cp * (103 / 100) := by
  have hdec : decide (ind.rsi < 80) = false := by
    rw [h]; exact decide_eq_false (by norm_num)
  refine ⟨?_, rfl, rfl⟩
  show (if _ && (_ && decide (ind.rsi < 80)) && _ && _ && _ && _ then Sig.LONG else Sig.WAIT) = _
  rw [hdec]
  simp

end TradeEngine

namespace TradeEngine

theorem pumpAfter_incr (f : ℚ → ℚ) (ticks : List (ℚ × ℚ))
    (h30 : ticks.length = 30)
    (hc : List.Chain' (· < ·) (ticks.map Prod.fst)) :
    (pumpAfter f ticks).signal = Sig.WAIT ∧
    (pumpAfter f ticks).entryPrice = (ticks.map Prod.fst).getLastD 0 ∧
    (pumpAfter f ticks).takeProfit = (ticks.map Prod.fst).getLastD 0 * (103 / 100) := by
  have hp : (runTicks (ticks.map fun t => (t.1, t.2, 0))).priceHistory = ticks.map Prod.fst := by
    have h1 := (runTicks_histories (ticks.map fun t => (t.1, t.2, 0))).1
    rw [h1, List.map_map]
    have h2 : ((fun t : ℚ × ℚ × ℚ => t.1) ∘ fun t : ℚ × ℚ => (t.1, t.2, (0 : ℚ)))
        = Prod.fst := rfl
    rw [h2]
    exact lastN_of_le (by rw [List.length_map, h30]; norm_num)
  have hrsi : (getIndicatorValues f (runTicks (ticks.map fun t => (t.1, t.2, 0)))).rsi = 100 := by
    simp only [getIndicatorValues]
    rw [hp]
    exact calculateRSI_eq_100 (by rw [List.length_map, h30]; norm_num) hc
  have hprice : (getIndicatorValues f (runTicks (ticks.map fun t => (t.1, t.2, 0)))).price
      = (ticks.map Prod.fst).getLastD 0 := by
    simp only [getIndicatorValues]
    rw [hp]
  have hmain := checkPump_of_rsi_100
    (getIndicatorValues f (runTicks (ticks.map fun t => (t.1, t.2, 0)))).price
    (getIndicatorValues f (runTicks (ticks.map fun t => (t.1, t.2, 0)))) hrsi
  simp only [pumpAfter]
  rw [← hprice]
  exact hmain

/-- The concrete feed used against the end-to-end pump claim: 30 ticks of
strictly increasing price; the final tick carries a large volume so that the
volume-spike conditions of the pump rule set hold at the last tick. -/
def C1ticks : List (ℚ × ℚ) :=
  [(100, 1), (101, 1), (102, 1), (103, 1), (104, 1), (105, 1), (106, 1), (107, 1),
   (108, 1), (109, 1), (110, 1), (111, 1), (112, 1), (113, 1), (114, 1), (115, 1),
   (116, 1), (117, 1), (118, 1), (119, 1), (120, 1), (121, 1), (122, 1), (123, 1),
   (124, 1), (125, 1), (126, 1), (127, 1), (128, 1), (129, 100)]

end TradeEngine

namespace TradeEngine

theorem rsiAvgGain_nonneg (prices : List ℚ) (period : ℕ) : 0 ≤ rsiAvgGain prices period := by
  unfold rsiAvgGain
  apply div_nonneg _ (by positivity)
  apply List.sum_nonneg
  intro x hx
  obtain ⟨c, _, hcx⟩ := List.mem_map.mp hx
  rw [← hcx]
  split
  · linarith
  · exact le_refl 0

theorem rsiAvgLoss_nonneg (prices : List ℚ) (period : ℕ) : 0 ≤ rsiAvgLoss prices period := by
  unfold rsiAvgLoss
  apply div_nonneg _ (by positivity)
  apply List.sum_nonneg
  intro x hx
  obtain ⟨c, _, hcx⟩ := List.mem_map.mp hx
  rw [← hcx]
  split
  · linarith
  · linarith [not_lt.mp (by assumption)]

theorem calculateRSI_mem_range (prices : List ℚ) (period : ℕ) :
    0 ≤ calculateRSI prices period ∧ calculateRSI prices period ≤ 100 := by
  unfold calculateRSI
  split
  · norm_num
  · split
    · norm_num
    · have hg := rsiAvgGain_nonneg prices period
      have hl := rsiAvgLoss_nonneg prices period
      have hlne : rsiAvgLoss prices period ≠ 0 := by assumption
      have hlpos : 0 < rsiAvgLoss prices period := lt_of_le_of_ne hl (Ne.symm hlne)
      have hrs : 0 ≤ rsiAvgGain prices period / rsiAvgLoss prices period :=
        div_nonneg hg hl
      have hden : (0 : ℚ) < 1 + rsiAvgGain prices period / rsiAvgLoss prices period := by
        linarith
      have hle : 100 / (1 + rsiAvgGain prices period / rsiAvgLoss prices period) ≤ 100 := by
        rw [div_le_iff₀ hden]
        nlinarith
      have hpos : 0 < 100 / (1 + rsiAvgGain prices period / rsiAvgLoss prices period) :=
        div_pos (by norm_num) hden
      constructor <;> linarith

theorem bollinger_variance_nonneg (recent : List ℚ) (m : ℚ) (period : ℕ) :
    0 ≤ (recent.map (fun p => (p - m) ^ 2)).sum / (period : ℚ) := by
  apply div_nonneg _ (by positivity)
  apply List.sum_nonneg
  intro x hx
  obtain ⟨c, _, hcx⟩ := List.mem_map.mp hx
  rw [← hcx]
  positivity

theorem idbPut_of_fresh (sig : TSig) (store : List TSig)
    (h : ∀ s ∈ store, s.id ≠ sig.id) : idbPut sig store = store ++ [sig] := by
  induction store with
  | nil => rfl
  | cons s rest ih =>
    simp only [idbPut]
    rw [if_neg (h s (by simp))]
    rw [ih (fun x hx => h x (by simp [hx]))]
    simp

theorem mkSig_id_injective {n k : ℕ} (h : (mkSig n).id = (mkSig k).id) : n = k := by
  simp only [mkSig] at h
  simpa using congrArg (fun s => s.data.length) h

theorem idbStoreAfter_eq (k : ℕ) : idbStoreAfter k = (List.range k).map mkSig := by
  induction k with
  | zero => rfl
  | succ n ih =>
    unfold idbStoreAfter at ih ⊢
    rw [List.range_succ, List.foldl_append, List.map_append]
    simp only [List.foldl_cons, List.foldl_nil]
    rw [ih]
    rw [idbPut_of_fresh]
    · simp
    · intro s hs
      obtain ⟨m, hm, hms⟩ := List.mem_map.mp hs
      rw [← hms]
      intro hid
      have := mkSig_id_injective hid
      subst this
      exact absurd (List.mem_range.mp hm) (lt_irrefl m)

theorem wRun_not_invoked (c : ℕ) (evs : List WEvent) :
    ∀ st : Option ℕ, st ≠ some c → (∀ e ∈ evs, e ≠ WEvent.req c) →
      c ∉ (wRun st evs).2 := by
  induction evs with
  | nil => intro st _ _; simp [wRun]
  | cons e es ih =>
    intro st hst hevs
    simp only [wRun, List.mem_append]
    push_neg
    constructor
    · cases e with
      | req d =>
        simp [wStep]
      | resp =>
        cases st with
        | none => simp [wStep]
        | some x =>
          simp only [wStep, List.mem_singleton]
          intro hxc
          exact hst (by rw [hxc])
    · apply ih
      · cases e with
        | req d =>
          simp only [wStep]
          intro hc
          exact hevs (WEvent.req d) (by simp) (by rw [Option.some_inj.mp hc])
        | resp =>
          cases st <;> simp [wStep]
      · intro x hx
        exact hevs x (by simp [hx])

theorem markSignalExecuted_of_absent (sid : String) (p : ℚ) (now : ℤ)
    (signals : List TSig) (h : ∀ s ∈ signals, s.id ≠ sid) :
    markSignalExecuted sid p now signals = signals := by
  induction signals with
  | nil => rfl
  | cons s rest ih =>
    simp only [markSignalExecuted]
    rw [if_neg (h s (by simp))]
    rw [ih (fun x hx => h x (by simp [hx]))]

theorem markSignalExecuted_of_found (sid : String) (p : ℚ) (now : ℤ)
    (pre post : List TSig) (s : TSig) (hpre : ∀ x ∈ pre, x.id ≠ sid)
    (hs : s.id = sid) :
    markSignalExecuted sid p now (pre ++ s :: post)
      = pre ++ execUpdate s p now :: post := by
  induction pre with
  | nil =>
    simp only [List.nil_append, markSignalExecuted]
    rw [if_pos hs]
  | cons x rest ih =>
    simp only [List.cons_append, markSignalExecuted, List.append_eq]
    rw [if_neg (hpre x (by simp))]
    rw [ih (fun y hy => hpre y (by simp [hy]))]

end TradeEngine

namespace TradeEngine

/-- Strength of the CVD trend as the amended claim states it: difference of
last and first of the trailing window, divided by the absolute first value
when that value is nonzero and by 1 when it is zero. -/
def cvdTrendStrength (cvdValues : List ℚ) (lookbackPeriod : ℕ) : ℚ :=
  let recentCVD := cvdValues.drop (cvdValues.length - lookbackPeriod)
  (recentCVD.getLastD 0 - recentCVD.headI) /
    (if recentCVD.headI = 0 then 1 else |recentCVD.headI|)

/-- The CVD values exhibited against C4: ten buffered values whose window
starts at one half and ends at fourteen twentyfifths. -/
def C4cvd : List ℚ :=
  [1/2, 1/2, 1/2, 1/2, 1/2, 1/2, 1/2, 1/2, 1/2, 14/25]

/-- C1 counterexample: a feed of 30 strictly increasing prices whose volumes
satisfy the stated volume bound (baseline one third) makes the pump strategy
produce WAIT rather than LONG, so the claimed LONG emission fails. -/
theorem C1_pump_counterexample :
    C1ticks.length = 30 ∧
    List.Chain' (· < ·) (C1ticks.map Prod.fst) ∧
    (0 < (1/3 : ℚ) ∧ ∀ t ∈ C1ticks, 3 * (1/3 : ℚ) ≤ t.2) ∧
    (pumpAfter (fun x => x) C1ticks).signal = Sig.WAIT ∧
    (pumpAfter (fun x => x) C1ticks).signal ≠ Sig.LONG := by
  have hw := (pumpAfter_incr (fun x => x) C1ticks (by simp [C1ticks])
    (by norm_num [C1ticks, List.chain'_cons])).1
  refine ⟨by simp [C1ticks], by norm_num [C1ticks, List.chain'_cons],
    ⟨by norm_num, by norm_num [C1ticks]⟩, hw, ?_⟩
  rw [hw]
  simp

/-- C1 as amended: feeding 30 ticks of strictly increasing price, with each
volume at least three times a positive flat baseline, makes the pump strategy
produce WAIT (the strictly increasing feed pins RSI at 100, outside the
required band below 80); the entry price still equals the last price of the
feed and the take profit still equals that entry price times 1.03. -/
theorem C1_pump_incr_feed_waits (sqrtFn : ℚ → ℚ) (ticks : List (ℚ × ℚ))
    (hlen : ticks.length = 30)
    (hinc : List.Chain' (· < ·) (ticks.map Prod.fst))
    (_hvol : ∃ v : ℚ, 0 < v ∧ ∀ t ∈ ticks, 3 * v ≤ t.2) :
    (pumpAfter sqrtFn ticks).signal = Sig.WAIT ∧
    (pumpAfter sqrtFn ticks).entryPrice = (ticks.map Prod.fst).getLastD 0 ∧
    (pumpAfter sqrtFn ticks).takeProfit
      = (ticks.map Prod.fst).getLastD 0 * (103 / 100) :=
  pumpAfter_incr sqrtFn ticks hlen hinc

/-- C1 witness: the amended statement evaluated on the concrete feed. -/
theorem C1_pump_incr_feed_waits_witness :
    (pumpAfter (fun x => x) C1ticks).signal = Sig.WAIT ∧
    (pumpAfter (fun x => x) C1ticks).entryPrice = (C1ticks.map Prod.fst).getLastD 0 ∧
    (pumpAfter (fun x => x) C1ticks).takeProfit
      = (C1ticks.map Prod.fst).getLastD 0 * (103 / 100) :=
  C1_pump_incr_feed_waits (fun x => x) C1ticks (by simp [C1ticks])
    (by norm_num [C1ticks, List.chain'_cons])
    ⟨1/3, by norm_num, by norm_num [C1ticks]⟩

/-- C2: while a key is pending with origin t0, a request strictly inside the
duplicate window is rejected and the origin is kept; a request at or past
the window is accepted and becomes the new origin; an absent key always
accepts.  In particular, with the 10000 ms window of the source: accept at
t0, reject at t0 plus 1000 ms, accept at t0 plus 11000 ms. -/
theorem C2_debouncer_window (t0 t : ℤ) :
    (t - t0 < duplicateWindow →
      shouldProcessSignal (some t0) t = (false, some t0)) ∧
    (duplicateWindow ≤ t - t0 →
      shouldProcessSignal (some t0) t = (true, some t)) ∧
    shouldProcessSignal none t = (true, some t) ∧
    shouldProcessSignal (some t0) (t0 + 1000) = (false, some t0) ∧
    shouldProcessSignal (some t0) (t0 + 11000) = (true, some (t0 + 11000)) := by
  refine ⟨?_, ?_, rfl, ?_, ?_⟩
  · intro h
    simp [shouldProcessSignal, h]
  · intro h
    simp [shouldProcessSignal, not_lt.mpr h]
  · simp [shouldProcessSignal, duplicateWindow]
  · simp [shouldProcessSignal, duplicateWindow]

/-- C2 witness: the debouncer decisions at origin 0. -/
theorem C2_debouncer_window_witness :
    shouldProcessSignal (some 0) 1000 = (false, some 0) ∧
    shouldProcessSignal (some 0) 11000 = (true, some 11000) :=
  ⟨(C2_debouncer_window 0 1000).1 (by norm_num [duplicateWindow]),
   (C2_debouncer_window 0 11000).2.1 (by norm_num [duplicateWindow])⟩

/-- C3 counterexample: the worker code path produces a CVD value from the
volume data and two random samples; on the identical tick input the value
changes with the samples, so that code path is not a function of the tick
sequence and the replay claim fails for it. -/
theorem C3_workerCVD_counterexample :
    workerCVD [1] 1 (1/2) = 500 ∧ workerCVD [1] 0 (1/2) = -500 ∧
    workerCVD [1] 1 (1/2) ≠ workerCVD [1] 0 (1/2) := by
  norm_num [workerCVD, List.getLastD]

/-- C3 as amended: the engine path is deterministic; replaying an identical
tick sequence through the history store yields an identical CVD series. -/
theorem C3_cvd_deterministic (t1 t2 : List (ℚ × ℚ)) (h : t1 = t2) :
    cvdSeriesOf t1 = cvdSeriesOf t2 := by rw [h]

/-- C3 witness: determinism evaluated on a concrete replay. -/
theorem C3_cvd_deterministic_witness :
    cvdSeriesOf [((1:ℚ), (1:ℚ))] = cvdSeriesOf [((1:ℚ), (1:ℚ))] :=
  C3_cvd_deterministic _ _ rfl

/-- C4 counterexample: on ten buffered CVD values starting at one half, the
source classifies the trend bullish while the claimed formula with max of
the absolute first value and 1 classifies it neutral. -/
theorem C4_cvdTrend_counterexample :
    calculateCVDTrend C4cvd 10 = Trend.bullish ∧
    specCVDTrend C4cvd 10 = Trend.neutral ∧
    calculateCVDTrend C4cvd 10 ≠ specCVDTrend C4cvd 10 := by
  have h1 : calculateCVDTrend C4cvd 10 = Trend.bullish := by
    norm_num [C4cvd, calculateCVDTrend, List.getLastD, List.headI, abs_of_pos]
  have h2 : specCVDTrend C4cvd 10 = Trend.neutral := by
    norm_num [C4cvd, specCVDTrend, List.getLastD, List.headI, abs_of_pos]
  exact ⟨h1, h2, by rw [h1, h2]; simp⟩

/-- C4 as amended: with fewer than ten buffered values the trend is neutral;
with at least ten, the trend compares the strength (last minus first over
the absolute first value, or over 1 when the first value is zero) against
the tenth thresholds. -/
theorem C4_cvdTrend_amended (cvdValues : List ℚ) :
    (cvdValues.length < 10 → calculateCVDTrend cvdValues 10 = Trend.neutral) ∧
    (10 ≤ cvdValues.length →
      calculateCVDTrend cvdValues 10 =
        if 1 / 10 < cvdTrendStrength cvdValues 10 then Trend.bullish
        else if cvdTrendStrength cvdValues 10 < -(1 / 10) then Trend.bearish
        else Trend.neutral) := by
  constructor
  · intro h
    unfold calculateCVDTrend
    rw [if_pos h]
  · intro h
    unfold calculateCVDTrend cvdTrendStrength
    rw [if_neg (not_lt.mpr h)]

/-- C4 witness: the amended statement evaluated on the concrete values. -/
theorem C4_cvdTrend_amended_witness :
    calculateCVDTrend C4cvd 10 =
      if 1 / 10 < cvdTrendStrength C4cvd 10 then Trend.bullish
      else if cvdTrendStrength C4cvd 10 < -(1 / 10) then Trend.bearish
      else Trend.neutral :=
  (C4_cvdTrend_amended C4cvd).2 (by norm_num [C4cvd])

end TradeEngine

namespace TradeEngine

/-- C5: after any tick sequence each of the four history series holds at
most 100 entries; the price series is exactly the suffix of the most recent
(at most 100) prices in arrival order, so the oldest entries are the evicted
ones; and after 150 appends the price series has length exactly 100 and
holds exactly the last 100 appended prices in order. -/
theorem C5_history_bounded (ticks : List (ℚ × ℚ × ℚ)) :
    ((runTicks ticks).priceHistory.length ≤ 100 ∧
     (runTicks ticks).volumeHistory.length ≤ 100 ∧
     (runTicks ticks).openInterestHistory.length ≤ 100 ∧
     (runTicks ticks).cvdHistory.length ≤ 100) ∧
    (runTicks ticks).priceHistory = lastN 100 (ticks.map (fun t => t.1)) ∧
    (ticks.length = 150 →
      (runTicks ticks).priceHistory.length = 100 ∧
      (runTicks ticks).priceHistory = (ticks.map (fun t => t.1)).drop 50) := by
  obtain ⟨hp, hv, ho, hc⟩ := runTicks_histories ticks
  refine ⟨⟨?_, ?_, ?_, ?_⟩, hp, ?_⟩
  · rw [hp, lastN_length]; omega
  · rw [hv, lastN_length]; omega
  · rw [ho, lastN_length]; omega
  · omega
  · intro h150
    constructor
    · rw [hp, lastN_length, List.length_map, h150]
      omega
    · rw [hp, lastN]
      congr 1
      rw [List.length_map, h150]

/-- C5 witness: the capacity facts evaluated after 150 identical ticks. -/
theorem C5_history_bounded_witness :
    (runTicks (List.replicate 150 ((1:ℚ), (1:ℚ), (0:ℚ)))).priceHistory.length = 100 ∧
    (runTicks (List.replicate 150 ((1:ℚ), (1:ℚ), (0:ℚ)))).priceHistory
      = ((List.replicate 150 ((1:ℚ), (1:ℚ), (0:ℚ))).map (fun t => t.1)).drop 50 :=
  (C5_history_bounded (List.replicate 150 ((1:ℚ), (1:ℚ), (0:ℚ)))).2.2 (by simp)

/-- C6 counterexample: the IndexedDB backend stores each saved signal with a
keyed upsert and never evicts, so 1001 accepted saves with distinct ids
leave 1001 stored records, above the claimed cap of 1000. -/
theorem C6_idb_uncapped_counterexample :
    (idbStoreAfter 1001).length = 1001 ∧ 1000 < (idbStoreAfter 1001).length := by
  rw [idbStoreAfter_eq]
  simp

/-- C6 as amended: the 1000-record cap with oldest-first eviction holds in
the localStorage fallback path: after any save the stored list has at most
1000 records and is a front segment of the new record followed by the
filtered previous records, the evicted records being the trailing, oldest
ones; the IndexedDB backend itself does not enforce the cap. -/
theorem C6_localStorage_capped (signal : TSig) (signals : List TSig) :
    (saveSignalLocal signal signals).length ≤ 1000 ∧
    ∃ evicted, signal :: localFiltered signal signals
      = saveSignalLocal signal signals ++ evicted := by
  simp only [saveSignalLocal, maxSignals]
  split
  · constructor
    · simp
    · exact ⟨(signal :: localFiltered signal signals).drop 1000,
        (List.take_append_drop _ _).symm⟩
  · constructor
    · omega
    · exact ⟨[], by simp⟩

/-- C7: RSI at period 14 is exactly 50 with fewer than 15 buffered prices,
exactly 100 when the trailing average loss vanishes, otherwise equals the
ratio formula, and always lies between 0 and 100. -/
theorem C7_rsi_spec (prices : List ℚ) :
    (prices.length < 15 → calculateRSI prices 14 = 50) ∧
    (15 ≤ prices.length → rsiAvgLoss prices 14 = 0 → calculateRSI prices 14 = 100) ∧
    (15 ≤ prices.length → rsiAvgLoss prices 14 ≠ 0 →
      calculateRSI prices 14
        = 100 - 100 / (1 + rsiAvgGain prices 14 / rsiAvgLoss prices 14)) ∧
    0 ≤ calculateRSI prices 14 ∧ calculateRSI prices 14 ≤ 100 := by
  refine ⟨?_, ?_, ?_, calculateRSI_mem_range prices 14⟩
  · intro h
    unfold calculateRSI
    rw [if_pos (by omega)]
  · intro h hl
    unfold calculateRSI
    rw [if_neg (by omega), if_pos hl]
  · intro h hl
    unfold calculateRSI
    rw [if_neg (by omega), if_neg hl]

/-- C7 witness: the degenerate and saturated cases evaluated concretely. -/
theorem C7_rsi_spec_witness :
    calculateRSI [1] 14 = 50 ∧
    calculateRSI [1, 2, 3, 4, 5, 6, 7, 8, 9, 10, 11, 12, 13, 14, 15] 14 = 100 :=
  ⟨(C7_rsi_spec [1]).1 (by simp),
   (C7_rsi_spec [1, 2, 3, 4, 5, 6, 7, 8, 9, 10, 11, 12, 13, 14, 15]).2.1 (by simp)
     (by norm_num [rsiAvgLoss, rsiWindow, listDeltas])⟩

/-- C8: with at least 20 buffered prices the bands are ordered lower, middle,
upper, the middle band is the 20-period mean, and the bands are symmetric
about the middle; with fewer than 20 prices all three bands equal the
current price.  The square-root parameter is only assumed to send
nonnegative inputs to nonnegative outputs, which holds of the numeric
square root of the source. -/
theorem C8_bollinger_spec (sqrtFn : ℚ → ℚ) (hf : ∀ x, 0 ≤ x → 0 ≤ sqrtFn x)
    (prices : List ℚ) :
    (20 ≤ prices.length →
      (calculateBollingerBands sqrtFn prices 20).2.1
          ≤ (calculateBollingerBands sqrtFn prices 20).2.2 ∧
      (calculateBollingerBands sqrtFn prices 20).2.2
          ≤ (calculateBollingerBands sqrtFn prices 20).1 ∧
      (calculateBollingerBands sqrtFn prices 20).2.2
          = (prices.drop (prices.length - 20)).sum / 20 ∧
      (calculateBollingerBands sqrtFn prices 20).1
            - (calculateBollingerBands sqrtFn prices 20).2.2
          = (calculateBollingerBands sqrtFn prices 20).2.2
            - (calculateBollingerBands sqrtFn prices 20).2.1) ∧
    (prices.length < 20 →
      calculateBollingerBands sqrtFn prices 20
        = (prices.getLastD 0, prices.getLastD 0, prices.getLastD 0)) := by
  constructor
  · intro h
    have hnl : ¬prices.length < 20 := not_lt.mpr h
    simp only [calculateBollingerBands, if_neg hnl, Nat.cast_ofNat]
    set recent := prices.drop (prices.length - 20) with hrec
    set m := recent.sum / (20 : ℚ) with hm
    set v := (recent.map (fun p => (p - m) ^ 2)).sum / (20 : ℚ) with hv
    have hvar : 0 ≤ v := bollinger_variance_nonneg recent m 20
    have hsd : 0 ≤ sqrtFn v := hf _ hvar
    refine ⟨?_, ?_, ?_, ?_⟩
    · show m - sqrtFn v * 2 ≤ m
      linarith
    · show m ≤ m + sqrtFn v * 2
      linarith
    · trivial
    · show m + sqrtFn v * 2 - m = m - (m - sqrtFn v * 2)
      ring
  · intro h
    simp only [calculateBollingerBands, if_pos h]

/-- C8 witness: the band facts evaluated on a flat 20-price window. -/
theorem C8_bollinger_spec_witness :
    (calculateBollingerBands id (List.replicate 20 (1:ℚ)) 20).2.1
        ≤ (calculateBollingerBands id (List.replicate 20 (1:ℚ)) 20).2.2 ∧
    (calculateBollingerBands id (List.replicate 20 (1:ℚ)) 20).2.2
        ≤ (calculateBollingerBands id (List.replicate 20 (1:ℚ)) 20).1 ∧
    (calculateBollingerBands id (List.replicate 20 (1:ℚ)) 20).2.2
        = ((List.replicate 20 (1:ℚ)).drop ((List.replicate 20 (1:ℚ)).length - 20)).sum / 20 ∧
    (calculateBollingerBands id (List.replicate 20 (1:ℚ)) 20).1
          - (calculateBollingerBands id (List.replicate 20 (1:ℚ)) 20).2.2
        = (calculateBollingerBands id (List.replicate 20 (1:ℚ)) 20).2.2
          - (calculateBollingerBands id (List.replicate 20 (1:ℚ)) 20).2.1 :=
  (C8_bollinger_spec id (fun _ hx => hx) (List.replicate 20 (1:ℚ))).1 (by simp)

/-- C9: a second request for the same instrument overwrites the stored
callback without invoking it; the overwritten callback is never invoked by
any later event sequence that does not register it again; and every worker
response invokes at most one callback and clears the pending entry. -/
theorem C9_dispatcher_latest_wins (id1 id2 : ℕ) (evs : List WEvent)
    (hne : id1 ≠ id2) (hevs : ∀ e ∈ evs, e ≠ WEvent.req id1) :
    (wStep (some id1) (WEvent.req id2)).1 = some id2 ∧
    (wStep (some id1) (WEvent.req id2)).2 = [] ∧
    id1 ∉ (wRun (some id2) evs).2 ∧
    (∀ st : Option ℕ,
      (wStep st WEvent.resp).2.length ≤ 1 ∧ (wStep st WEvent.resp).1 = none) := by
  refine ⟨rfl, rfl, ?_, ?_⟩
  · apply wRun_not_invoked id1 evs (some id2) _ hevs
    intro hcon
    exact hne (Option.some_inj.mp hcon).symm
  · intro st
    cases st <;> simp [wStep]

/-- C9 witness: the dispatcher facts on a concrete event sequence. -/
theorem C9_dispatcher_latest_wins_witness :
    (wStep (some 0) (WEvent.req 1)).1 = some 1 ∧
    (wStep (some 0) (WEvent.req 1)).2 = [] ∧
    0 ∉ (wRun (some 1) [WEvent.resp, WEvent.req 2, WEvent.resp]).2 ∧
    (∀ st : Option ℕ,
      (wStep st WEvent.resp).2.length ≤ 1 ∧ (wStep st WEvent.resp).1 = none) :=
  C9_dispatcher_latest_wins 0 1 [WEvent.resp, WEvent.req 2, WEvent.resp]
    (by decide) (by decide)

/-- C10: marking a stored signal executed updates exactly the first record
carrying the id, setting executed, clearing active, recording the execution
time, and setting the profit to execution minus entry for LONG and entry
minus execution for SHORT while leaving it untouched otherwise; every other
record is unchanged, and an id that is not present leaves the store as it
was. -/
theorem C10_markExecuted_spec (sid : String) (ep : ℚ) (now : ℤ)
    (signals pre post : List TSig) (s : TSig) :
    ((∀ x ∈ signals, x.id ≠ sid) →
      markSignalExecuted sid ep now signals = signals) ∧
    (signals = pre ++ s :: post → (∀ x ∈ pre, x.id ≠ sid) → s.id = sid →
      markSignalExecuted sid ep now signals =
        pre ++ { s with
          executed := true
          active := false
          executedAt := some now
          pnl :=
            if s.signal = Sig.LONG then some (ep - s.entryPrice)
            else if s.signal = Sig.SHORT then some (s.entryPrice - ep)
            else s.pnl } :: post) := by
  constructor
  · exact markSignalExecuted_of_absent sid ep now signals
  · intro hsig hpre hs
    rw [hsig, markSignalExecuted_of_found sid ep now pre post s hpre hs]
    rfl

/-- C10 witness: the update evaluated on a concrete two-record store. -/
theorem C10_markExecuted_spec_witness :
    markSignalExecuted (mkSig 2).id 5 7 [mkSig 1, mkSig 2]
      = [mkSig 1] ++ { mkSig 2 with
          executed := true
          active := false
          executedAt := some 7
          pnl :=
            if (mkSig 2).signal = Sig.LONG then some (5 - (mkSig 2).entryPrice)
            else if (mkSig 2).signal = Sig.SHORT then some ((mkSig 2).entryPrice - 5)
            else (mkSig 2).pnl } :: [] :=
  (C10_markExecuted_spec (mkSig 2).id 5 7 [mkSig 1, mkSig 2] [mkSig 1] [] (mkSig 2)).2
    rfl (by simp [mkSig]) rfl

end TradeEngine
